import Mathlib

set_option maxRecDepth 1000000

/-!
Verification of the pngme chunk codec.

Shallow embedding of `src/chunk_type.rs`, `src/chunk.rs` and (modelled from
the specification, since `png.rs` is not part of the provided sources) the
PNG container.  Bytes are natural numbers; byte buffers are `List Nat` with
the convention that genuine `u8` buffers satisfy `∀ b ∈ buf, b < 256`.
Fallible Rust operations return `Except String _`; operations that can
panic (out-of-bounds slicing, `unwrap`, `expect`, arithmetic overflow in
debug builds) return `Option _`, with `none` standing for a panic.
-/

/-- 32-bit bitwise exclusive or, computed bit by bit with 32 rounds of
division by two.  Both arguments are reduced modulo `2^32` implicitly:
only the low 32 bits contribute to the result. -/
def xor32Go : Nat → Nat → Nat → Nat
  | 0, _, _ => 0
  | k + 1, a, b => (if a % 2 = b % 2 then 0 else 1) + 2 * xor32Go k (a / 2) (b / 2)

def xor32 (a b : Nat) : Nat := xor32Go 32 a b

/-- One round of the reflected CRC-32 bit loop (polynomial `0xEDB88320`). -/
def crcStep (c : Nat) : Nat :=
  if c % 2 = 1 then xor32 (c / 2) 3988292384 else c / 2

def crcRounds : Nat → Nat → Nat
  | 0, c => c
  | k + 1, c => crcRounds k (crcStep c)

/-- Feed one byte into the running CRC state: xor the byte into the low
bits, then eight bit rounds.  This is the bitwise form of the table-driven
`crc` crate computation for `CRC_32_ISO_HDLC`. -/
def crc32Update (crc b : Nat) : Nat := crcRounds 8 (xor32 crc b)

/-- CRC-32/ISO-HDLC of a byte sequence: init `0xFFFFFFFF`, reflected
polynomial `0xEDB88320`, final xor `0xFFFFFFFF`.  Embeds
`Crc::<u32>::new(&CRC_32_ISO_HDLC).checksum` as used in `src/chunk.rs`. -/
def crc32 (data : List Nat) : Nat :=
  xor32 (data.foldl crc32Update 4294967295) 4294967295

/-- Big-endian `u32` read, embedding `u32::from_be_bytes` applied to a
4-byte slice. -/
def fromBeBytes (l : List Nat) : Nat :=
  l.foldl (fun acc b => acc * 256 + b) 0

/-- Big-endian `u32` write, embedding `u32::to_be_bytes`. -/
def toBeBytes (n : Nat) : List Nat :=
  [n / 16777216 % 256, n / 65536 % 256, n / 256 % 256, n % 256]

/-- Membership test for the accepted ASCII letter ranges `65..91` and
`97..123` used by both `ChunkType` constructors in `src/chunk_type.rs`. -/
def inRanges (b : Nat) : Bool :=
  (decide (65 ≤ b) && decide (b < 91)) || (decide (97 ≤ b) && decide (b < 123))

def byteIsAscii (b : Nat) : Bool := decide (b < 128)

def isAsciiUppercase (b : Nat) : Bool := decide (65 ≤ b) && decide (b ≤ 90)

def isAsciiLowercase (b : Nat) : Bool := decide (97 ≤ b) && decide (b ≤ 122)

/-- `ChunkType` from `src/chunk_type.rs`: a wrapper around four bytes.
The Rust field has type `[u8; 4]`; here it is a list of naturals, and
every value produced by the constructors has length four with each byte
in the accepted ranges. -/
structure ChunkType where
  chunk_type : List Nat
deriving DecidableEq, Repr

/-- `TryFrom<[u8; 4]> for ChunkType` (src/chunk_type.rs lines 9-28): the
(in Rust vacuous) length-4 check, then every byte must lie in `65..91`
or `97..123`. -/
def ChunkType.tryFrom (value : List Nat) : Except String ChunkType :=
  if value.length ≠ 4 then
    .error "ChunkType only accepts an array of 4 elements"
  else if value.all inRanges then
    .ok ⟨value⟩
  else
    .error "ChunkType only accepts bytes with the range(65 - 90) and (97 - 122)"

/-- `FromStr for ChunkType` (src/chunk_type.rs lines 30-56): byte length
must be 4, the string must be ASCII, and every byte must lie in the
accepted ranges.  Strings are embedded as their UTF-8 byte lists. -/
def ChunkType.from_str (s : List Nat) : Except String ChunkType :=
  if s.length ≠ 4 then
    .error "ChunkType can only take 4 characters"
  else if ¬ (s.all byteIsAscii) then
    .error "ChunkType takes ASCII characters only"
  else if s.all inRanges then
    .ok ⟨s⟩
  else
    .error "ChunkType only accepts bytes with the range(65 - 90) and (97 - 122)"

def ChunkType.bytes (t : ChunkType) : List Nat := t.chunk_type

def ChunkType.is_critical (t : ChunkType) : Bool :=
  isAsciiUppercase (t.chunk_type.getD 0 0)

def ChunkType.is_public (t : ChunkType) : Bool :=
  isAsciiUppercase (t.chunk_type.getD 1 0)

def ChunkType.is_reserved_bit_valid (t : ChunkType) : Bool :=
  isAsciiUppercase (t.chunk_type.getD 2 0)

def ChunkType.is_safe_to_copy (t : ChunkType) : Bool :=
  isAsciiLowercase (t.chunk_type.getD 3 0)

/-- `ChunkType::is_valid` (src/chunk_type.rs lines 93-109), embedded
exactly as written: the uppercase range used here is `67..91` (the source
literal is 67, not 65), a byte outside both ranges pushes `false` into a
list, and the result is the reserved-bit check conjoined with the absence
of any such pushed `false`. -/
def ChunkType.is_valid (t : ChunkType) : Bool :=
  t.is_reserved_bit_valid &&
    !(t.chunk_type.any (fun b =>
      !((decide (67 ≤ b) && decide (b < 91)) || (decide (97 ≤ b) && decide (b < 123)))))

/-- `Chunk` from `src/chunk.rs`: declared length, four raw type bytes,
payload, CRC. -/
structure Chunk where
  length : Nat
  chunk_type : List Nat
  chunk_data : List Nat
  crc : Nat
deriving DecidableEq, Repr

/-- `TryFrom<&[u8]> for Chunk` (src/chunk.rs lines 14-45).  `none` models
a panic: `value[..4]` and `value[4..8]` panic when the buffer is shorter
than 8; `let end = 8 + length` overflows `u32` when `length ≥ 2^32 - 8`
(a panic in debug builds, and in release builds the wrapped `end < 8`
makes the slice `value[8..end]` panic as well); `value[8..end]` panics
when `end` exceeds the buffer length.  The stored CRC is read from the
last four bytes of the buffer, and the checksum is recomputed over
`value[4..end]`. -/
def chunkTryFrom (value : List Nat) : Option (Except String Chunk) :=
  if value.length < 4 then none
  else if value.length < 8 then none
  else
    let length := fromBeBytes (value.take 4)
    let ctype := (value.drop 4).take 4
    if 4294967296 ≤ 8 + length then none
    else if value.length < 8 + length then none
    else
      let chunk_data := (value.drop 8).take length
      let crc := fromBeBytes (value.drop (value.length - 4))
      let correct_crc := crc32 ((value.drop 4).take (4 + length))
      if crc ≠ correct_crc then
        some (.error "Invalid crc (Cyclic Redundancy Check)")
      else
        some (.ok ⟨length, ctype, chunk_data, crc⟩)

/-- `Chunk::new` (src/chunk.rs lines 48-60).  `data.len().try_into()`
into `u32` panics (`none`) when the payload length does not fit in 32
bits; otherwise the CRC is computed over the type bytes followed by the
payload. -/
def Chunk.new (chunk_type : ChunkType) (data : List Nat) : Option Chunk :=
  if data.length < 4294967296 then
    some ⟨data.length, chunk_type.bytes, data, crc32 (chunk_type.bytes ++ data)⟩
  else none

/-- `Chunk::as_bytes` (src/chunk.rs lines 84-96): big-endian length,
type bytes, payload, big-endian CRC. -/
def Chunk.as_bytes (c : Chunk) : List Nat :=
  toBeBytes c.length ++ c.chunk_type ++ c.chunk_data ++ toBeBytes c.crc

/-- `Chunk::chunk_type` (src/chunk.rs lines 72-75):
`ChunkType::try_from(self.chunk_type).unwrap()`; `none` models the panic
of `unwrap` on the error case. -/
def Chunk.chunkType (c : Chunk) : Option ChunkType :=
  match ChunkType.tryFrom c.chunk_type with
  | .ok t => some t
  | .error _ => none

/-- UTF-8 validity of a byte sequence, as checked by Rust's
`std::str::from_utf8`: ASCII bytes stand alone; `C2..DF` opens a 2-byte
sequence; `E0..EF` a 3-byte sequence (with the usual overlong/surrogate
restrictions on the second byte); `F0..F4` a 4-byte sequence; every
continuation byte lies in `80..BF`. -/
def utf8Valid : List Nat → Bool
  | [] => true
  | b :: rest =>
    if b < 128 then utf8Valid rest
    else if 194 ≤ b ∧ b ≤ 223 then
      match rest with
      | c1 :: rest2 => (decide (128 ≤ c1) && decide (c1 ≤ 191)) && utf8Valid rest2
      | [] => false
    else if 224 ≤ b ∧ b ≤ 239 then
      match rest with
      | c1 :: c2 :: rest2 =>
        (if b = 224 then decide (160 ≤ c1) && decide (c1 ≤ 191)
         else if b = 237 then decide (128 ≤ c1) && decide (c1 ≤ 159)
         else decide (128 ≤ c1) && decide (c1 ≤ 191)) &&
        (decide (128 ≤ c2) && decide (c2 ≤ 191)) && utf8Valid rest2
      | _ => false
    else if 240 ≤ b ∧ b ≤ 244 then
      match rest with
      | c1 :: c2 :: c3 :: rest2 =>
        (if b = 240 then decide (144 ≤ c1) && decide (c1 ≤ 191)
         else if b = 244 then decide (128 ≤ c1) && decide (c1 ≤ 143)
         else decide (128 ≤ c1) && decide (c1 ≤ 191)) &&
        (decide (128 ≤ c2) && decide (c2 ≤ 191)) &&
        (decide (128 ≤ c3) && decide (c3 ≤ 191)) && utf8Valid rest2
      | _ => false
    else false

/-- `Chunk::data_as_string` (src/chunk.rs lines 77-82):
`std::str::from_utf8(..).expect("Invalid UTF-8")` panics (`none`) on an
invalid payload; otherwise the payload is wrapped in `Ok`.  The success
value is represented by the payload bytes themselves (the UTF-8 encoding
of the returned `String`).  No `.error` value is ever produced by this
embedding because the source has no non-panicking failure path. -/
def Chunk.data_as_string (c : Chunk) : Option (Except String (List Nat)) :=
  if utf8Valid c.chunk_data then some (.ok c.chunk_data) else none

/-- Modelled from the spec: the fixed 8-byte PNG file signature
(`png.rs` is not in the provided sources). -/
def pngSignature : List Nat := [137, 80, 78, 71, 13, 10, 26, 10]

/-- Modelled from the spec: the PNG container, an ordered sequence of
chunks (the signature is a constant; `png.rs` is not in the provided
sources). -/
structure Png where
  chunks : List Chunk
deriving DecidableEq, Repr

/-- Modelled from the spec: the chunk-splitting loop of `Png::try_from`
(`png.rs` is not in the provided sources).  Repeatedly decode chunks
until the buffer is exhausted; a trailing partial chunk (fewer than 12
bytes, or declared length overrunning the buffer) fails with the
`Truncated` error, and a chunk-level failure propagates.  Each chunk is
decoded from the exact `12 + length`-byte slice, per the spec's framing
rule, using the source `Chunk` parser.  The fuel argument only bounds
the recursion: every iteration consumes at least 12 bytes, so fuel
`rest.length` always suffices. -/
def parseChunksGo : Nat → List Nat → Option (Except String (List Chunk))
  | _, [] => some (.ok [])
  | 0, _ :: _ => none
  | fuel + 1, b :: rest0 =>
    let rest := b :: rest0
    if rest.length < 12 then some (.error "Truncated")
    else
      let length := fromBeBytes (rest.take 4)
      if rest.length < 12 + length then some (.error "Truncated")
      else
        match chunkTryFrom (rest.take (12 + length)) with
        | none => none
        | some (.error e) => some (.error e)
        | some (.ok c) =>
          match parseChunksGo fuel (rest.drop (12 + length)) with
          | none => none
          | some (.error e) => some (.error e)
          | some (.ok cs) => some (.ok (c :: cs))

/-- Modelled from the spec: chunk-splitting entry point with sufficient
fuel. -/
def parseChunks (rest : List Nat) : Option (Except String (List Chunk)) :=
  parseChunksGo rest.length rest

/-- Modelled from the spec: `Png::try_from` (`png.rs` is not in the
provided sources).  The first 8 bytes must equal the PNG signature
(`BadSignature` otherwise); the remainder is split into chunks. -/
def pngTryFrom (value : List Nat) : Option (Except String Png) :=
  if value.take 8 = pngSignature then
    match parseChunks (value.drop 8) with
    | none => none
    | some (.error e) => some (.error e)
    | some (.ok cs) => some (.ok ⟨cs⟩)
  else some (.error "BadSignature")

/-- Modelled from the spec: `Png::as_bytes` (`png.rs` is not in the
provided sources): the signature followed by each chunk's serialization
in sequence order. -/
def Png.as_bytes (p : Png) : List Nat :=
  pngSignature ++ (p.chunks.map Chunk.as_bytes).flatten

theorem xor32Go_lt (k : Nat) : ∀ a b : Nat, xor32Go k a b < 2 ^ k := by
  induction k with
  | zero => intro a b; simp [xor32Go]
  | succ k ih =>
    intro a b
    have h := ih (a / 2) (b / 2)
    simp only [xor32Go, pow_succ]
    split <;> omega

theorem xor32_lt (a b : Nat) : xor32 a b < 4294967296 := xor32Go_lt 32 a b

theorem crc32_lt (data : List Nat) : crc32 data < 4294967296 := xor32_lt _ _

theorem toBeBytes_fromBeBytes (l : List Nat) (h4 : l.length = 4)
    (hb : ∀ b ∈ l, b < 256) : toBeBytes (fromBeBytes l) = l := by
  match l, h4 with
  | [a, b, c, d], _ =>
    have ha : a < 256 := hb a (by simp)
    have hb' : b < 256 := hb b (by simp)
    have hc : c < 256 := hb c (by simp)
    have hd : d < 256 := hb d (by simp)
    simp only [fromBeBytes, toBeBytes, List.foldl]
    simp only [List.cons.injEq, and_true]
    omega

theorem fromBeBytes_toBeBytes (n : Nat) (h : n < 4294967296) :
    fromBeBytes (toBeBytes n) = n := by
  simp only [fromBeBytes, toBeBytes, List.foldl]
  omega

theorem fromBeBytes_lt (l : List Nat) (h4 : l.length = 4)
    (hb : ∀ b ∈ l, b < 256) : fromBeBytes l < 4294967296 := by
  match l, h4 with
  | [a, b, c, d], _ =>
    have ha : a < 256 := hb a (by simp)
    have hb' : b < 256 := hb b (by simp)
    have hc : c < 256 := hb c (by simp)
    have hd : d < 256 := hb d (by simp)
    simp only [fromBeBytes, List.foldl]
    omega

/-- On an exactly framed slice, a successful chunk parse determines the
fields, and serializing gives back the slice. -/
theorem chunkTryFrom_as_bytes (v : List Nat) (c : Chunk)
    (hb : ∀ b ∈ v, b < 256)
    (hexact : v.length = 12 + fromBeBytes (v.take 4))
    (h : chunkTryFrom v = some (.ok c)) :
    c.as_bytes = v := by
  simp only [chunkTryFrom] at h
  split at h
  · exact Option.noConfusion h
  split at h
  · exact Option.noConfusion h
  split at h
  · exact Option.noConfusion h
  split at h
  · exact Option.noConfusion h
  split at h
  · simp at h
  · rename_i h1 h2 h3 h4 h5
    have hc : c = ⟨fromBeBytes (v.take 4), (v.drop 4).take 4,
        (v.drop 8).take (fromBeBytes (v.take 4)),
        fromBeBytes (v.drop (v.length - 4))⟩ := by
      simp only [Option.some.injEq, Except.ok.injEq] at h
      exact h.symm
    subst hc
    set len := fromBeBytes (v.take 4) with hlen
    have hlen4 : (v.take 4).length = 4 := by
      simp [List.length_take]; omega
    have hdrop4 : v.drop (v.length - 4) = v.drop (8 + len) := by
      rw [hexact]
      congr 1
      omega
    have hdlen : (v.drop (8 + len)).length = 4 := by
      simp [List.length_drop]; omega
    have h1' : toBeBytes len = v.take 4 :=
      toBeBytes_fromBeBytes _ hlen4 (fun b hbm => hb b (List.take_subset _ _ hbm))
    have h2' : toBeBytes (fromBeBytes (v.drop (v.length - 4))) = v.drop (8 + len) := by
      rw [hdrop4]
      exact toBeBytes_fromBeBytes _ hdlen (fun b hbm => hb b (List.drop_subset _ _ hbm))
    show toBeBytes len ++ (v.drop 4).take 4 ++ (v.drop 8).take len ++
        toBeBytes (fromBeBytes (v.drop (v.length - 4))) = v
    rw [h1', h2']
    have hsplit3 : v.drop (8 + len) = (v.drop 8).drop len := by
      rw [List.drop_drop]
    rw [List.append_assoc, List.append_assoc, hsplit3,
        List.take_append_drop len (v.drop 8)]
    have hdrop8 : v.drop 8 = (v.drop 4).drop 4 := by
      rw [List.drop_drop]
    rw [hdrop8, List.take_append_drop 4 (v.drop 4), List.take_append_drop 4 v]

/-- A successful run of the chunk-splitting loop reproduces its input
when the chunk serializations are concatenated. -/
theorem parseChunksGo_flatten (fuel : Nat) :
    ∀ (rest : List Nat) (cs : List Chunk),
      (∀ b ∈ rest, b < 256) →
      parseChunksGo fuel rest = some (.ok cs) →
      (cs.map Chunk.as_bytes).flatten = rest := by
  induction fuel with
  | zero =>
    intro rest cs hb h
    cases rest with
    | nil =>
      simp only [parseChunksGo, Option.some.injEq, Except.ok.injEq] at h
      subst h
      simp
    | cons b rest0 => exact Option.noConfusion h
  | succ fuel ih =>
    intro rest cs hb h
    cases rest with
    | nil =>
      simp only [parseChunksGo, Option.some.injEq, Except.ok.injEq] at h
      subst h
      simp
    | cons b rest0 =>
      simp only [parseChunksGo] at h
      split at h
      · simp at h
      split at h
      · simp at h
      rename_i hlen12 hfit
      split at h
      · exact Option.noConfusion h
      · simp at h
      · rename_i c hc
        split at h
        · exact Option.noConfusion h
        · simp at h
        · rename_i cs' hcs'
          simp only [Option.some.injEq, Except.ok.injEq] at h
          subst h
          set rest := b :: rest0 with hrest
          set len := fromBeBytes (rest.take 4) with hlendef
          have hrlen : ¬ rest.length < 12 + len := hfit
          have hslice : (rest.take (12 + len)).length = 12 + len := by
            simp [List.length_take]
            omega
          have htake4 : (rest.take (12 + len)).take 4 = rest.take 4 := by
            rw [List.take_take]
            congr 1
            omega
          have hcbytes : c.as_bytes = rest.take (12 + len) := by
            refine chunkTryFrom_as_bytes _ _ ?_ ?_ hc
            · exact fun x hx => hb x (List.take_subset _ _ hx)
            · rw [htake4, hslice, ← hlendef]
          have hrec : ((cs'.map Chunk.as_bytes).flatten) = rest.drop (12 + len) :=
            ih _ _ (fun x hx => hb x (List.drop_subset _ _ hx)) hcs'
          simp only [List.map_cons, List.flatten_cons, hcbytes, hrec]
          exact List.take_append_drop _ _

def iendChunk : Chunk := ⟨0, [73, 69, 78, 68], [], 2923585666⟩

def iendBuf : List Nat :=
  [137, 80, 78, 71, 13, 10, 26, 10, 0, 0, 0, 0, 73, 69, 78, 68, 174, 66, 96, 130]

/-- C1: for every byte buffer on which the container parse succeeds,
serializing the resulting container reproduces the buffer exactly. -/
theorem png_parse_serialize_roundtrip (buf : List Nat) (p : Png)
    (hb : ∀ x ∈ buf, x < 256)
    (h : pngTryFrom buf = some (.ok p)) :
    p.as_bytes = buf := by
  simp only [pngTryFrom] at h
  split at h
  · rename_i hsig
    split at h
    · exact Option.noConfusion h
    · simp at h
    · rename_i cs hcs
      simp only [Option.some.injEq, Except.ok.injEq] at h
      subst h
      show pngSignature ++ (cs.map Chunk.as_bytes).flatten = buf
      have hflat : (cs.map Chunk.as_bytes).flatten = buf.drop 8 :=
        parseChunksGo_flatten _ _ _ (fun x hx => hb x (List.drop_subset _ _ hx)) hcs
      rw [hflat, ← hsig]
      exact List.take_append_drop _ _
  · simp at h

theorem png_parse_serialize_roundtrip_witness :
    pngTryFrom iendBuf = some (.ok ⟨[iendChunk]⟩) ∧
      Png.as_bytes ⟨[iendChunk]⟩ = iendBuf := by
  refine ⟨by rfl, png_parse_serialize_roundtrip iendBuf ⟨[iendChunk]⟩ ?_ (by rfl)⟩
  decide

theorem all_ascii_of_inRanges (s : List Nat) (h : s.all inRanges = true) :
    s.all byteIsAscii = true := by
  rw [List.all_eq_true] at h ⊢
  intro b hbm
  have := h b hbm
  simp only [inRanges, Bool.or_eq_true, Bool.and_eq_true, decide_eq_true_eq] at this
  simp only [byteIsAscii, decide_eq_true_eq]
  omega

/-- Success characterization of `TryFrom<[u8; 4]> for ChunkType`. -/
theorem tryFrom_ok_iff (s : List Nat) (t : ChunkType) :
    ChunkType.tryFrom s = .ok t ↔
      (s.length = 4 ∧ s.all inRanges = true ∧ t = ⟨s⟩) := by
  constructor
  · intro h
    simp only [ChunkType.tryFrom] at h
    split at h
    · exact Except.noConfusion h
    split at h
    · rename_i h1 h2
      simp only [Except.ok.injEq] at h
      exact ⟨by omega, h2, h.symm⟩
    · exact Except.noConfusion h
  · rintro ⟨h1, h2, rfl⟩
    simp only [ChunkType.tryFrom]
    rw [if_neg (by omega), if_pos h2]

/-- Success characterization of `FromStr for ChunkType`. -/
theorem from_str_ok_iff (s : List Nat) (t : ChunkType) :
    ChunkType.from_str s = .ok t ↔
      (s.length = 4 ∧ s.all inRanges = true ∧ t = ⟨s⟩) := by
  constructor
  · intro h
    simp only [ChunkType.from_str] at h
    split at h
    · exact Except.noConfusion h
    split at h
    · exact Except.noConfusion h
    split at h
    · rename_i h1 h2 h3
      simp only [Except.ok.injEq] at h
      exact ⟨by omega, h3, h.symm⟩
    · exact Except.noConfusion h
  · rintro ⟨h1, h2, rfl⟩
    simp only [ChunkType.from_str]
    rw [if_neg (by omega), if_neg (by rw [all_ascii_of_inRanges s h2]; simp), if_pos h2]

/-- C7: the byte-array constructor fails exactly when some byte is outside
the ASCII letter ranges; the string constructor fails exactly when the
string is not exactly 4 ASCII bytes or some byte is outside the ranges
(for 4-byte inputs a non-ASCII byte is already outside the ranges); on
success both store exactly the input bytes. -/
theorem chunk_type_construction (s : List Nat) :
    (s.length = 4 → (ChunkType.tryFrom s = .ok ⟨s⟩ ↔ s.all inRanges = true)) ∧
    (ChunkType.from_str s = .ok ⟨s⟩ ↔ (s.length = 4 ∧ s.all inRanges = true)) ∧
    (∀ t, ChunkType.tryFrom s = .ok t → t.chunk_type = s) ∧
    (∀ t, ChunkType.from_str s = .ok t → t.chunk_type = s) := by
  refine ⟨?_, ?_, ?_, ?_⟩
  · intro h4
    rw [tryFrom_ok_iff]
    exact ⟨fun h => h.2.1, fun h => ⟨h4, h, rfl⟩⟩
  · rw [from_str_ok_iff]
    exact ⟨fun h => ⟨h.1, h.2.1⟩, fun h => ⟨h.1, h.2, rfl⟩⟩
  · intro t h
    obtain ⟨-, -, rfl⟩ := (tryFrom_ok_iff s t).mp h
    rfl
  · intro t h
    obtain ⟨-, -, rfl⟩ := (from_str_ok_iff s t).mp h
    rfl

theorem chunk_type_construction_witness :
    (ChunkType.tryFrom [82, 117, 83, 116] = .ok ⟨[82, 117, 83, 116]⟩ ↔
      ([82, 117, 83, 116].all inRanges) = true) ∧
    (ChunkType.from_str [82, 117, 49, 116] = .ok ⟨[82, 117, 49, 116]⟩ ↔
      (([82, 117, 49, 116] : List Nat).length = 4 ∧ ([82, 117, 49, 116].all inRanges) = true)) :=
  ⟨(chunk_type_construction [82, 117, 83, 116]).1 (by rfl),
   (chunk_type_construction [82, 117, 49, 116]).2.1⟩

/-- C10: on 4-byte strings the string constructor and the byte-array
constructor succeed together, and when they succeed the results agree. -/
theorem from_str_tryFrom_agree (s : List Nat) (h4 : s.length = 4) :
    ((∃ t, ChunkType.from_str s = .ok t) ↔ (∃ t, ChunkType.tryFrom s = .ok t)) ∧
    (∀ t u, ChunkType.from_str s = .ok t → ChunkType.tryFrom s = .ok u → t = u) := by
  constructor
  · constructor
    · rintro ⟨t, h⟩
      obtain ⟨-, h2, rfl⟩ := (from_str_ok_iff s t).mp h
      exact ⟨⟨s⟩, (tryFrom_ok_iff s ⟨s⟩).mpr ⟨h4, h2, rfl⟩⟩
    · rintro ⟨t, h⟩
      obtain ⟨-, h2, rfl⟩ := (tryFrom_ok_iff s t).mp h
      exact ⟨⟨s⟩, (from_str_ok_iff s ⟨s⟩).mpr ⟨h4, h2, rfl⟩⟩
  · intro t u ht hu
    obtain ⟨-, -, rfl⟩ := (from_str_ok_iff s t).mp ht
    obtain ⟨-, -, rfl⟩ := (tryFrom_ok_iff s u).mp hu
    rfl

theorem from_str_tryFrom_agree_witness :
    ChunkType.from_str [82, 117, 83, 116] = .ok ⟨[82, 117, 83, 116]⟩ ∧
    ChunkType.tryFrom [82, 117, 83, 116] = .ok ⟨[82, 117, 83, 116]⟩ ∧
    ((⟨[82, 117, 83, 116]⟩ : ChunkType) = ⟨[82, 117, 83, 116]⟩) :=
  ⟨rfl, rfl,
    (from_str_tryFrom_agree [82, 117, 83, 116] rfl).2 _ _ rfl rfl⟩

/-- C8: for a successfully constructed type code with bytes `b0 b1 b2 b3`,
`is_critical` holds iff `b0` is an uppercase ASCII letter, `is_public`
iff `b1` is, `is_reserved_bit_valid` iff `b2` is, and `is_safe_to_copy`
iff `b3` is a lowercase ASCII letter. -/
theorem chunk_type_flag_semantics (b0 b1 b2 b3 : Nat) (t : ChunkType)
    (h : ChunkType.tryFrom [b0, b1, b2, b3] = .ok t) :
    (t.is_critical = true ↔ (65 ≤ b0 ∧ b0 ≤ 90)) ∧
    (t.is_public = true ↔ (65 ≤ b1 ∧ b1 ≤ 90)) ∧
    (t.is_reserved_bit_valid = true ↔ (65 ≤ b2 ∧ b2 ≤ 90)) ∧
    (t.is_safe_to_copy = true ↔ (97 ≤ b3 ∧ b3 ≤ 122)) := by
  obtain ⟨-, -, rfl⟩ := (tryFrom_ok_iff _ t).mp h
  simp [ChunkType.is_critical, ChunkType.is_public, ChunkType.is_reserved_bit_valid,
    ChunkType.is_safe_to_copy, isAsciiUppercase, isAsciiLowercase]

theorem chunk_type_flag_semantics_witness :
    (⟨[82, 117, 83, 116]⟩ : ChunkType).is_critical = true ∧
    (⟨[82, 117, 83, 116]⟩ : ChunkType).is_public = false ∧
    (⟨[82, 117, 83, 116]⟩ : ChunkType).is_reserved_bit_valid = true ∧
    (⟨[82, 117, 83, 116]⟩ : ChunkType).is_safe_to_copy = true := by
  have h := chunk_type_flag_semantics 82 117 83 116 ⟨[82, 117, 83, 116]⟩ (by rfl)
  refine ⟨h.1.mpr (by omega), ?_, h.2.2.1.mpr (by omega), h.2.2.2.mpr (by omega)⟩
  have h2 := h.2.1
  revert h2
  decide

/-- C5: the claim fails on the code.  `"AuSt"` (`[65, 117, 83, 116]`) is
constructible (every byte in the accepted ranges) and its reserved bit is
valid, yet `is_valid` returns `false`, because the source's `is_valid`
checks the uppercase range `67..91` instead of `65..91`. -/
theorem is_valid_uppercase_range_divergence :
    ChunkType.tryFrom [65, 117, 83, 116] = .ok ⟨[65, 117, 83, 116]⟩ ∧
    (([65, 117, 83, 116].all inRanges) = true) ∧
    (⟨[65, 117, 83, 116]⟩ : ChunkType).is_reserved_bit_valid = true ∧
    (⟨[65, 117, 83, 116]⟩ : ChunkType).is_valid = false :=
  ⟨rfl, rfl, rfl, rfl⟩

/-- C3: the claim fails on the code.  There is no `Truncated` error path:
a buffer shorter than 4 (or 8) bytes makes the parse panic
(out-of-bounds slice, modelled by `none`); a 12-byte buffer whose
declared length overruns the buffer also panics; and an 8-byte buffer
with declared length 0 is not rejected as truncated at all — it reaches
the CRC comparison and fails with the CRC error string. -/
theorem chunk_parse_truncation_divergence :
    chunkTryFrom [] = none ∧
    chunkTryFrom [0, 0, 0] = none ∧
    chunkTryFrom [0, 0, 0, 5, 82, 117, 83, 116, 0, 0, 0, 0] = none ∧
    chunkTryFrom [0, 0, 0, 0, 65, 65, 65, 65] =
      some (.error "Invalid crc (Cyclic Redundancy Check)") :=
  ⟨rfl, rfl, rfl, rfl⟩

/-- C6: the claim fails on the code.  `[255]` is not valid UTF-8, and on
a chunk with that payload `data_as_string` panics (`expect`, modelled by
`none`) instead of returning a typed `Utf8Error` failure. -/
theorem data_as_string_panic_divergence :
    utf8Valid [255] = false ∧
    (Chunk.new ⟨[82, 117, 83, 116]⟩ [255]).map Chunk.data_as_string = some none :=
  ⟨rfl, rfl⟩

/-- C9: when the four stored type bytes lie in the accepted ranges the
accessor's internal `unwrap` cannot fail and yields exactly those bytes;
the precondition is necessary: chunk parsing accepts a chunk whose type
bytes are `[0, 0, 0, 0]` (with a matching CRC), and on that chunk the
accessor panics (`none`). -/
theorem chunk_type_accessor_safety (c : Chunk)
    (h4 : c.chunk_type.length = 4)
    (hr : c.chunk_type.all inRanges = true) :
    Chunk.chunkType c = some ⟨c.chunk_type⟩ ∧
    chunkTryFrom [0, 0, 0, 0, 0, 0, 0, 0, 33, 68, 223, 28] =
      some (.ok ⟨0, [0, 0, 0, 0], [], 558161692⟩) ∧
    Chunk.chunkType ⟨0, [0, 0, 0, 0], [], 558161692⟩ = none := by
  refine ⟨?_, rfl, rfl⟩
  simp only [Chunk.chunkType, ChunkType.tryFrom]
  rw [if_neg (by omega), if_pos hr]

theorem chunk_type_accessor_safety_witness :
    Chunk.new ⟨[82, 117, 83, 116]⟩ [104, 105] =
      some ⟨2, [82, 117, 83, 116], [104, 105], 3535552371⟩ ∧
    Chunk.chunkType ⟨2, [82, 117, 83, 116], [104, 105], 3535552371⟩ =
      some ⟨[82, 117, 83, 116]⟩ :=
  ⟨by rfl,
   (chunk_type_accessor_safety ⟨2, [82, 117, 83, 116], [104, 105], 3535552371⟩
      (by rfl) (by rfl)).1⟩

/-- When the declared length makes the `u32` computation `8 + length`
overflow, chunk parsing panics regardless of the buffer contents. -/
theorem chunkTryFrom_none_of_overflow (v : List Nat) (h8 : ¬ v.length < 8)
    (hov : 4294967296 ≤ 8 + fromBeBytes (v.take 4)) :
    chunkTryFrom v = none := by
  simp only [chunkTryFrom]
  rw [if_neg (by omega), if_neg h8, if_pos hov]

/-- C2 (amended): for every valid chunk type code and every payload of
length at most `2^32 - 9`, parsing the serialization of `Chunk::new`
succeeds and returns a chunk with identical fields. -/
theorem chunk_new_as_bytes_roundtrip (s d : List Nat) (t : ChunkType) (c : Chunk)
    (ht : ChunkType.tryFrom s = .ok t)
    (hd : 8 + d.length < 4294967296)
    (hnew : Chunk.new t d = some c) :
    chunkTryFrom c.as_bytes = some (.ok c) := by
  obtain ⟨h4, hall, rfl⟩ := (tryFrom_ok_iff s t).mp ht
  simp only [Chunk.new, ChunkType.bytes] at hnew
  rw [if_pos (by omega)] at hnew
  simp only [Option.some.injEq] at hnew
  subst hnew
  set v := Chunk.as_bytes ⟨d.length, s, d, crc32 (s ++ d)⟩ with hv
  have hlen4 : (toBeBytes d.length).length = 4 := by simp [toBeBytes]
  have hclen4 : (toBeBytes (crc32 (s ++ d))).length = 4 := by simp [toBeBytes]
  have hvassoc : v = toBeBytes d.length ++ (s ++ (d ++ toBeBytes (crc32 (s ++ d)))) := by
    simp [hv, Chunk.as_bytes, List.append_assoc]
  have hvlen : v.length = 12 + d.length := by
    rw [hvassoc]
    simp [hlen4, h4, hclen4]
    omega
  have htake4 : v.take 4 = toBeBytes d.length := by
    rw [hvassoc]
    exact List.take_left' hlen4
  have hfromBe : fromBeBytes (v.take 4) = d.length := by
    rw [htake4]
    exact fromBeBytes_toBeBytes _ (by omega)
  have hdrop4 : v.drop 4 = s ++ (d ++ toBeBytes (crc32 (s ++ d))) := by
    rw [hvassoc]
    exact List.drop_left' hlen4
  have hdrop8' : v.drop 8 = (v.drop 4).drop 4 := by
    rw [List.drop_drop]
  have hdrop8 : v.drop 8 = d ++ toBeBytes (crc32 (s ++ d)) := by
    rw [hdrop8', hdrop4]
    exact List.drop_left' h4
  have hdata : (v.drop 8).take d.length = d := by
    rw [hdrop8]
    exact List.take_left' rfl
  have hcrcseg : v.drop (v.length - 4) = toBeBytes (crc32 (s ++ d)) := by
    have h1 : v.length - 4 = 8 + d.length := by omega
    have h2 : v.drop (8 + d.length) = (v.drop 8).drop d.length := by
      rw [List.drop_drop, Nat.add_comm]
    rw [h1, h2, hdrop8]
    exact List.drop_left' rfl
  have hstored : fromBeBytes (v.drop (v.length - 4)) = crc32 (s ++ d) := by
    rw [hcrcseg]
    exact fromBeBytes_toBeBytes _ (crc32_lt _)
  have htype : (v.drop 4).take 4 = s := by
    rw [hdrop4]
    exact List.take_left' h4
  have hcomputed : (v.drop 4).take (4 + d.length) = s ++ d := by
    rw [List.take_add, htype, ← hdrop8', hdata]
  simp only [chunkTryFrom, hfromBe]
  rw [if_neg (by omega), if_neg (by omega), if_neg (by omega), if_neg (by omega),
      hstored, hcomputed, htype, hdata, if_neg (by simp)]

theorem chunk_new_as_bytes_roundtrip_witness :
    Chunk.new ⟨[82, 117, 83, 116]⟩ [104, 105] =
      some ⟨2, [82, 117, 83, 116], [104, 105], 3535552371⟩ ∧
    chunkTryFrom (Chunk.as_bytes ⟨2, [82, 117, 83, 116], [104, 105], 3535552371⟩) =
      some (.ok ⟨2, [82, 117, 83, 116], [104, 105], 3535552371⟩) :=
  ⟨by rfl,
   chunk_new_as_bytes_roundtrip [82, 117, 83, 116] [104, 105] ⟨[82, 117, 83, 116]⟩
     ⟨2, [82, 117, 83, 116], [104, 105], 3535552371⟩ (by rfl) (by norm_num) (by rfl)⟩

/-- `toBeBytes` always produces four bytes. -/
theorem toBeBytes_length (n : Nat) : (toBeBytes n).length = 4 := by
  simp [toBeBytes]

/-- The concrete chunk produced by `Chunk::new` from the type code
`"RuSt"` and a `2^32 - 8`-byte payload of zeros. -/
def hugeChunk : Chunk :=
  ⟨4294967288, [82, 117, 83, 116], List.replicate 4294967288 0,
    crc32 ([82, 117, 83, 116] ++ List.replicate 4294967288 0)⟩

/-- C2 fails as stated at the upper end of the `u32` range: with a valid
type code and a payload of length `2^32 - 8` (which fits in a `u32`),
`Chunk::new` succeeds but parsing its serialization panics — the `u32`
sum `8 + length` overflows (a panic in debug builds; in release builds
the wrapped `end` makes the payload slice panic) — instead of
succeeding. -/
theorem chunk_new_as_bytes_roundtrip_counterexample :
    (List.replicate 4294967288 (0 : Nat)).length < 4294967296 ∧
    ChunkType.tryFrom [82, 117, 83, 116] = .ok ⟨[82, 117, 83, 116]⟩ ∧
    Chunk.new ⟨[82, 117, 83, 116]⟩ (List.replicate 4294967288 0) = some hugeChunk ∧
    chunkTryFrom hugeChunk.as_bytes = none := by
  have hlen : (List.replicate 4294967288 (0 : Nat)).length = 4294967288 :=
    List.length_replicate 4294967288 0
  have hassoc : hugeChunk.as_bytes =
      toBeBytes 4294967288 ++ ([82, 117, 83, 116] ++ (List.replicate 4294967288 0 ++
        toBeBytes (crc32 ([82, 117, 83, 116] ++ List.replicate 4294967288 0)))) := by
    simp only [hugeChunk, Chunk.as_bytes, List.append_assoc]
  refine ⟨by rw [hlen]; norm_num, rfl, ?_, ?_⟩
  · simp only [Chunk.new, ChunkType.bytes, hlen, hugeChunk]
    rw [if_pos (by norm_num)]
  · apply chunkTryFrom_none_of_overflow
    · rw [hassoc, List.length_append, List.length_append, List.length_append,
          toBeBytes_length, toBeBytes_length, hlen]
      decide
    · rw [hassoc, List.take_left' (toBeBytes_length 4294967288),
          fromBeBytes_toBeBytes _ (by norm_num)]

/-- C4 (amended): for every exactly framed buffer of `12 + length` bytes
whose declared length avoids the `u32` overflow of `8 + length`, parsing
fails with the CRC error exactly when the trailing stored CRC differs
from the checksum recomputed over the type bytes followed by the
payload, and succeeds (with the parsed fields) when they agree. -/
theorem chunk_crc_verification (buf : List Nat) (len : Nat)
    (hlen : fromBeBytes (buf.take 4) = len)
    (hframe : buf.length = 12 + len)
    (hov : 8 + len < 4294967296) :
    (chunkTryFrom buf = some (.error "Invalid crc (Cyclic Redundancy Check)") ↔
      fromBeBytes (buf.drop (buf.length - 4)) ≠
        crc32 ((buf.drop 4).take 4 ++ (buf.drop 8).take len)) ∧
    (fromBeBytes (buf.drop (buf.length - 4)) =
        crc32 ((buf.drop 4).take 4 ++ (buf.drop 8).take len) →
      chunkTryFrom buf =
        some (.ok ⟨len, (buf.drop 4).take 4, (buf.drop 8).take len,
          fromBeBytes (buf.drop (buf.length - 4))⟩)) := by
  have hsub : (buf.drop 4).take (4 + len) =
      (buf.drop 4).take 4 ++ (buf.drop 8).take len := by
    rw [List.take_add]
    have h1 : (buf.drop 4).drop 4 = buf.drop 8 := by
      rw [List.drop_drop]
    rw [h1]
  simp only [chunkTryFrom, hlen, hsub]
  rw [if_neg (by omega), if_neg (by omega), if_neg (by omega), if_neg (by omega)]
  by_cases hcrc : fromBeBytes (buf.drop (buf.length - 4)) =
      crc32 ((buf.drop 4).take 4 ++ (buf.drop 8).take len)
  · rw [if_neg (fun hne => hne hcrc)]
    refine ⟨⟨fun h => absurd h (by simp), fun h => absurd hcrc h⟩, fun _ => rfl⟩
  · rw [if_pos hcrc]
    exact ⟨⟨fun _ => hcrc, fun _ => rfl⟩, fun h => absurd h hcrc⟩

theorem chunk_crc_verification_witness :
    chunkTryFrom [0, 0, 0, 0, 73, 69, 78, 68, 174, 66, 96, 130] =
      some (.ok ⟨0, [73, 69, 78, 68], [], 2923585666⟩) := by
  have h := (chunk_crc_verification [0, 0, 0, 0, 73, 69, 78, 68, 174, 66, 96, 130]
    0 rfl rfl (by norm_num)).2 (by rfl)
  exact h.trans (by rfl)

/-- The exactly framed 4 GiB buffer whose declared length `2^32 - 8`
overflows the `u32` sum `8 + length` inside the parser. -/
def hugeBuf : List Nat :=
  toBeBytes 4294967288 ++ [73, 69, 78, 68] ++ List.replicate 4294967288 0 ++ [0, 0, 0, 0]

/-- C4 fails as stated at the upper end of the `u32` range: `hugeBuf` is
a well-framed buffer of exactly `12 + length` bytes (all bytes below
256), yet parsing panics (the `u32` computation `8 + length` overflows)
instead of performing the CRC dichotomy. -/
theorem chunk_crc_verification_counterexample :
    hugeBuf.length = 12 + fromBeBytes (hugeBuf.take 4) ∧
    (∀ b ∈ hugeBuf, b < 256) ∧
    chunkTryFrom hugeBuf = none := by
  have hlen : (List.replicate 4294967288 (0 : Nat)).length = 4294967288 :=
    List.length_replicate 4294967288 0
  have hassoc : hugeBuf =
      toBeBytes 4294967288 ++ ([73, 69, 78, 68] ++ (List.replicate 4294967288 0 ++
        [0, 0, 0, 0])) := by
    simp only [hugeBuf, List.append_assoc]
  have htake : hugeBuf.take 4 = toBeBytes 4294967288 := by
    rw [hassoc]
    exact List.take_left' (toBeBytes_length 4294967288)
  have hfb : fromBeBytes (hugeBuf.take 4) = 4294967288 := by
    rw [htake]
    exact fromBeBytes_toBeBytes _ (by norm_num)
  have hblen : hugeBuf.length = 4294967300 := by
    rw [hassoc, List.length_append, List.length_append, List.length_append,
        toBeBytes_length, hlen]
    decide
  have hby : toBeBytes 4294967288 = [255, 255, 255, 248] := by norm_num [toBeBytes]
  refine ⟨by rw [hfb, hblen], ?_, ?_⟩
  · intro b hb
    rw [hassoc, hby] at hb
    simp only [List.mem_append, List.mem_cons, List.not_mem_nil, or_false,
      List.mem_replicate] at hb
    omega
  · apply chunkTryFrom_none_of_overflow
    · rw [hblen]
      decide
    · rw [hfb]
